import Mathlib

/-!
Formal model of the descriptive-rigidity service (`main.go`, three handler
variants: single-frame deltas, multi-frame absolute positions, multi-frame
deltas), covering the identifier-normalization, response-decoding and
id-remapping logic.

Modelling conventions:
* Go `float64` values are modelled as rationals; the only arithmetic the
  code performs on them is subtraction and `math.Round(v*100)/100`, which is
  exact on the decimal values at stake in the statements below.
* Go maps are modelled as association lists with overwrite-on-insert
  (`ainsert`) and first-match lookup (`alookup`); the code keeps their keys
  distinct wherever a theorem below depends on the contents, which makes the
  results independent of Go's randomized map iteration order.
* `encoding/json` unmarshalling is modelled on an abstract JSON value tree
  (`JVal`): absent struct fields yield zero values, type mismatches yield an
  error.  Go records the first error and still returns it from `Unmarshal`,
  so an `Except`-style short circuit is equivalent at the `err != nil`
  granularity the handlers use.
-/

namespace DR

/-- `ControlPoint` from `main.go` (identical in all three variants). -/
structure ControlPoint where
  id : Int
  role : String
  position : List ℚ
deriving DecidableEq

/-- `Deformation` from `main.go`: the `delta_x`, `delta_y`, `delta_z` triple. -/
structure Deformation where
  delta_x : ℚ
  delta_y : ℚ
  delta_z : ℚ
deriving DecidableEq

/-- `Position` from the absolute-position variant: an `{x, y, z}` triple. -/
structure Position where
  x : ℚ
  y : ℚ
  z : ℚ
deriving DecidableEq

/-- First-match lookup in an association list (model of Go map read). -/
def alookup {β : Type} (x : Int) : List (Int × β) → Option β
  | [] => none
  | p :: rest => if p.1 = x then some p.2 else alookup x rest

/-- Overwrite-on-insert into an association list (model of Go map write). -/
def ainsert {β : Type} (k : Int) (v : β) : List (Int × β) → List (Int × β)
  | [] => [(k, v)]
  | p :: rest => if p.1 = k then (k, v) :: rest else p :: ainsert k v rest

theorem alookup_ainsert {β : Type} (x k : Int) (v : β) (l : List (Int × β)) :
    alookup x (ainsert k v l) = if k = x then some v else alookup x l := by
  induction l with
  | nil => simp [ainsert, alookup]
  | cons p rest ih =>
    by_cases hpk : p.1 = k
    · by_cases hkx : k = x <;> simp [ainsert, alookup, hpk, hkx]
    · simp only [ainsert, hpk, if_false]
      by_cases hpx : p.1 = x
      · have hkx : ¬ k = x := fun h => hpk (h ▸ hpx)
        simp [alookup, hpx, hkx]
      · simp [alookup, hpx, ih]

theorem alookup_isSome_iff {β : Type} (x : Int) (l : List (Int × β)) :
    (alookup x l).isSome ↔ x ∈ l.map Prod.fst := by
  induction l with
  | nil => simp [alookup]
  | cons p rest ih =>
    by_cases hpx : p.1 = x
    · simp [alookup, hpx]
    · simp [alookup, hpx, ih, Ne.symm hpx]

theorem alookup_eq_none_of_not_mem {β : Type} (x : Int) (l : List (Int × β))
    (h : x ∉ l.map Prod.fst) : alookup x l = none := by
  cases hl : alookup x l with
  | none => rfl
  | some v =>
    exact absurd ((alookup_isSome_iff x l).mp (by simp [hl])) h

/-- Zero-based index of the first occurrence of `x` (as a Go `int`). -/
def idxOf (x : Int) : List Int → Int
  | [] => 0
  | y :: ys => if y = x then 0 else 1 + idxOf x ys

/-- The association list pairing each element of a seen-list with its index
(starting at `n`); models the contents of the Go `idMap`. -/
def mapOfSeen : List Int → Int → List (Int × Int)
  | [], _ => []
  | y :: ys, n => (y, n) :: mapOfSeen ys (n + 1)

/-- The distinct values of a list in first-seen order, appended to `seen`. -/
def firstSeen (seen : List Int) : List Int → List Int
  | [] => seen
  | x :: xs => if x ∈ seen then firstSeen seen xs else firstSeen (seen ++ [x]) xs

theorem idxOf_nonneg (x : Int) (l : List Int) : 0 ≤ idxOf x l := by
  induction l with
  | nil => simp [idxOf]
  | cons y ys ih =>
    by_cases h : y = x
    · simp [idxOf, h]
    · simp only [idxOf, h, if_false]
      omega

theorem idxOf_append_of_mem (x : Int) (s t : List Int) (h : x ∈ s) :
    idxOf x (s ++ t) = idxOf x s := by
  induction s with
  | nil => simp at h
  | cons y ys ih =>
    by_cases hyx : y = x
    · simp [idxOf, hyx]
    · have hx : x ∈ ys := by
        rcases List.mem_cons.mp h with h' | h'
        · exact absurd h'.symm hyx
        · exact h'
      simp [idxOf, hyx, ih hx]

theorem idxOf_append_of_not_mem (x : Int) (s t : List Int) (h : x ∉ s) :
    idxOf x (s ++ t) = (s.length : Int) + idxOf x t := by
  induction s with
  | nil => simp [idxOf]
  | cons y ys ih =>
    have hyx : ¬ y = x := fun hc => h (by simp [hc])
    have hx : x ∉ ys := fun hc => h (by simp [hc])
    rw [List.cons_append]
    simp only [idxOf, hyx, if_false]
    rw [ih hx, List.length_cons]
    push_cast
    ring

theorem idxOf_inj (x y : Int) (l : List Int) (hx : x ∈ l) (hy : y ∈ l)
    (h : idxOf x l = idxOf y l) : x = y := by
  induction l with
  | nil => simp at hx
  | cons z zs ih =>
    by_cases hzx : z = x <;> by_cases hzy : z = y
    · exact hzx ▸ hzy
    · exfalso
      simp only [idxOf, hzx, hzy, if_true, if_false] at h
      have := idxOf_nonneg y zs
      omega
    · exfalso
      simp only [idxOf, hzx, hzy, if_true, if_false] at h
      have := idxOf_nonneg x zs
      omega
    · have hx' : x ∈ zs := by
        rcases List.mem_cons.mp hx with h' | h'
        · exact absurd h'.symm hzx
        · exact h'
      have hy' : y ∈ zs := by
        rcases List.mem_cons.mp hy with h' | h'
        · exact absurd h'.symm hzy
        · exact h'
      simp only [idxOf, hzx, hzy, if_false] at h
      exact ih hx' hy' (by omega)

theorem alookup_mapOfSeen (x : Int) (s : List Int) (n : Int) :
    alookup x (mapOfSeen s n) =
      if x ∈ s then some (n + idxOf x s) else none := by
  induction s generalizing n with
  | nil => simp [mapOfSeen, alookup]
  | cons y ys ih =>
    by_cases hyx : y = x
    · simp [mapOfSeen, alookup, hyx, idxOf]
    · by_cases hx : x ∈ ys
      · simp only [mapOfSeen, alookup, hyx, if_false, ih, hx, if_true,
          List.mem_cons, idxOf, Ne.symm hyx, false_or]
        congr 1
        ring
      · have : x ∉ y :: ys := by simp [Ne.symm hyx, hx]
        simp [mapOfSeen, alookup, hyx, ih, hx, this]

theorem mapOfSeen_append (s : List Int) (y : Int) (n : Int) :
    mapOfSeen (s ++ [y]) n = mapOfSeen s n ++ [(y, n + (s.length : Int))] := by
  induction s generalizing n with
  | nil => simp [mapOfSeen]
  | cons z zs ih =>
    have h1 : mapOfSeen ((z :: zs) ++ [y]) n = (z, n) :: mapOfSeen (zs ++ [y]) (n + 1) := rfl
    have h2 : mapOfSeen (z :: zs) n = (z, n) :: mapOfSeen zs (n + 1) := rfl
    rw [h1, h2, ih, List.cons_append]
    have h3 : n + 1 + (zs.length : Int) = n + (((z :: zs).length : Nat) : Int) := by
      rw [List.length_cons]
      push_cast
      ring
    rw [h3]

theorem mapOfSeen_keys (s : List Int) (n : Int) :
    (mapOfSeen s n).map Prod.fst = s := by
  induction s generalizing n with
  | nil => simp [mapOfSeen]
  | cons z zs ih => simp [mapOfSeen, ih]

/-- The list of `k` consecutive integers starting at `n`. -/
def intRange (n : Int) : Nat → List Int
  | 0 => []
  | k + 1 => n :: intRange (n + 1) k

theorem mapOfSeen_values (s : List Int) (n : Int) :
    (mapOfSeen s n).map Prod.snd = intRange n s.length := by
  induction s generalizing n with
  | nil => rfl
  | cons z zs ih =>
    show n :: (mapOfSeen zs (n + 1)).map Prod.snd = n :: intRange (n + 1) zs.length
    rw [ih]

theorem firstSeen_exists_suffix (l seen : List Int) :
    ∃ t, firstSeen seen l = seen ++ t := by
  induction l generalizing seen with
  | nil => exact ⟨[], by simp [firstSeen]⟩
  | cons x xs ih =>
    by_cases hx : x ∈ seen
    · rcases ih seen with ⟨t, ht⟩
      exact ⟨t, by simpa [firstSeen, hx] using ht⟩
    · rcases ih (seen ++ [x]) with ⟨t, ht⟩
      exact ⟨[x] ++ t, by simp [firstSeen, hx, ht]⟩

theorem mem_firstSeen (x : Int) (l seen : List Int) :
    x ∈ firstSeen seen l ↔ x ∈ seen ∨ x ∈ l := by
  induction l generalizing seen with
  | nil => simp [firstSeen]
  | cons y ys ih =>
    by_cases hy : y ∈ seen
    · simp only [firstSeen, hy, if_true, ih, List.mem_cons]
      constructor
      · tauto
      · rintro (h | h | h)
        · exact Or.inl h
        · exact Or.inl (by rwa [h])
        · exact Or.inr h
    · simp only [firstSeen, hy, if_false, ih, List.mem_append,
        List.mem_singleton, List.mem_cons]
      tauto

theorem firstSeen_nodup (l seen : List Int) (h : seen.Nodup) :
    (firstSeen seen l).Nodup := by
  induction l generalizing seen with
  | nil => simpa [firstSeen] using h
  | cons x xs ih =>
    by_cases hx : x ∈ seen
    · simpa [firstSeen, hx] using ih seen h
    · have h2 : (seen ++ [x]).Nodup := by
        rw [List.nodup_append]
        refine ⟨h, List.nodup_singleton x, ?_⟩
        intro a ha hax
        rw [List.mem_singleton] at hax
        exact hx (hax ▸ ha)
      simpa [firstSeen, hx] using ih (seen ++ [x]) h2

/-! ### Identifier Normalizer

Translation of the duplicate-id fixing loop that all three `main.go`
variants contain verbatim:
```
idMap := make(map[int]int)
uniqueID := 0
for i, cp := range payload.ControlPoints {
    if _, exists := idMap[cp.ID]; !exists {
        idMap[cp.ID] = uniqueID
        payload.ControlPoints[i].ID = uniqueID
        uniqueID++
    } else {
        payload.ControlPoints[i].ID = idMap[cp.ID]
    }
}
```
-/

/-- The loop state: the `idMap` map, the `uniqueID` counter, and the
control points already rewritten (in reverse order). -/
structure NormState where
  idMap : List (Int × Int)
  uniqueID : Int
  outRev : List ControlPoint

/-- One iteration of the duplicate-id fixing loop. -/
def normStep (s : NormState) (cp : ControlPoint) : NormState :=
  match alookup cp.id s.idMap with
  | some n => { s with outRev := { cp with id := n } :: s.outRev }
  | none =>
    { idMap := s.idMap ++ [(cp.id, s.uniqueID)]
      uniqueID := s.uniqueID + 1
      outRev := { cp with id := s.uniqueID } :: s.outRev }

/-- The whole loop: the rewritten control-point sequence and the map from
original id to assigned id. -/
def normalizeIds (cps : List ControlPoint) : List ControlPoint × List (Int × Int) :=
  let s := cps.foldl normStep { idMap := [], uniqueID := 0, outRev := [] }
  (s.outRev.reverse, s.idMap)

/-- Structural description of the rewritten sequence: each point's id
becomes its index in the seen-list, new ids are handed out densely. -/
def normGo (seen : List Int) : List ControlPoint → List ControlPoint
  | [] => []
  | cp :: rest =>
    if cp.id ∈ seen then { cp with id := idxOf cp.id seen } :: normGo seen rest
    else { cp with id := (seen.length : Int) } :: normGo (seen ++ [cp.id]) rest

theorem normFold_eq (cps : List ControlPoint) (seen : List Int) (outRev : List ControlPoint) :
    cps.foldl normStep
        { idMap := mapOfSeen seen 0, uniqueID := (seen.length : Int), outRev := outRev } =
      { idMap := mapOfSeen (firstSeen seen (cps.map fun c => c.id)) 0
        uniqueID := ((firstSeen seen (cps.map fun c => c.id)).length : Int)
        outRev := (normGo seen cps).reverse ++ outRev } := by
  induction cps generalizing seen outRev with
  | nil => simp [firstSeen, normGo]
  | cons cp rest ih =>
    by_cases hmem : cp.id ∈ seen
    · have hstep : normStep
          { idMap := mapOfSeen seen 0, uniqueID := (seen.length : Int), outRev := outRev } cp =
          { idMap := mapOfSeen seen 0, uniqueID := (seen.length : Int)
            outRev := { cp with id := idxOf cp.id seen } :: outRev } := by
        simp [normStep, alookup_mapOfSeen, hmem]
      rw [List.foldl_cons, hstep, ih]
      have hfs : firstSeen seen ((cp :: rest).map fun c => c.id) =
          firstSeen seen (rest.map fun c => c.id) := by
        show firstSeen seen (cp.id :: rest.map fun c => c.id) = _
        simp [firstSeen, hmem]
      have hgo : normGo seen (cp :: rest) =
          { cp with id := idxOf cp.id seen } :: normGo seen rest := by
        simp [normGo, hmem]
      rw [hfs, hgo]
      simp
    · have hstep : normStep
          { idMap := mapOfSeen seen 0, uniqueID := (seen.length : Int), outRev := outRev } cp =
          { idMap := mapOfSeen (seen ++ [cp.id]) 0
            uniqueID := ((seen ++ [cp.id]).length : Int)
            outRev := { cp with id := (seen.length : Int) } :: outRev } := by
        simp [normStep, alookup_mapOfSeen, hmem, mapOfSeen_append]
      rw [List.foldl_cons, hstep, ih]
      have hfs : firstSeen seen ((cp :: rest).map fun c => c.id) =
          firstSeen (seen ++ [cp.id]) (rest.map fun c => c.id) := by
        show firstSeen seen (cp.id :: rest.map fun c => c.id) = _
        simp [firstSeen, hmem]
      have hgo : normGo seen (cp :: rest) =
          { cp with id := (seen.length : Int) } :: normGo (seen ++ [cp.id]) rest := by
        simp [normGo, hmem]
      rw [hfs, hgo]
      simp

/-- All ids of a control-point list, in order. -/
def idsOf (cps : List ControlPoint) : List Int := cps.map fun c => c.id

/-- The distinct original ids in first-seen order. -/
def firstSeenIds (cps : List ControlPoint) : List Int := firstSeen [] (idsOf cps)

/-- Closed form of the normalizer: every point keeps its role and position
and gets as new id the first-seen index of its original id; the produced
map pairs the distinct original ids, in first-seen order, with `0, 1, …`. -/
theorem normalizeIds_closed (cps : List ControlPoint) :
    normalizeIds cps =
      (cps.map fun cp => { cp with id := idxOf cp.id (firstSeenIds cps) },
       mapOfSeen (firstSeenIds cps) 0) := by
  have h0 : ({ idMap := [], uniqueID := 0, outRev := [] } : NormState) =
      { idMap := mapOfSeen [] 0, uniqueID := (([] : List Int).length : Int), outRev := [] } := by
    simp [mapOfSeen]
  have hmain := normFold_eq cps [] []
  have hgo : ∀ (l : List ControlPoint) (seen : List Int),
      normGo seen l = l.map fun cp => { cp with id := idxOf cp.id (firstSeen seen (idsOf l)) } := by
    intro l
    induction l with
    | nil => intro seen; rfl
    | cons cp rest ih =>
      intro seen
      by_cases hmem : cp.id ∈ seen
      · have hfs : firstSeen seen (idsOf (cp :: rest)) = firstSeen seen (idsOf rest) := by
          show firstSeen seen (cp.id :: idsOf rest) = _
          simp [firstSeen, hmem]
        have hsfx := firstSeen_exists_suffix (idsOf rest) seen
        rcases hsfx with ⟨t, ht⟩
        have hidx : idxOf cp.id (firstSeen seen (idsOf rest)) = idxOf cp.id seen := by
          rw [ht]
          exact idxOf_append_of_mem cp.id seen t hmem
        simp only [normGo, hmem, if_true, List.map_cons, hfs, hidx, ih seen]
      · have hfs : firstSeen seen (idsOf (cp :: rest)) =
            firstSeen (seen ++ [cp.id]) (idsOf rest) := by
          show firstSeen seen (cp.id :: idsOf rest) = _
          simp [firstSeen, hmem]
        rcases firstSeen_exists_suffix (idsOf rest) (seen ++ [cp.id]) with ⟨t, ht⟩
        have hidx : idxOf cp.id (firstSeen (seen ++ [cp.id]) (idsOf rest)) = (seen.length : Int) := by
          rw [ht, List.append_assoc]
          rw [idxOf_append_of_not_mem cp.id seen ([cp.id] ++ t) hmem]
          simp [idxOf]
        simp only [normGo, hmem, if_false, List.map_cons, hfs, hidx, ih (seen ++ [cp.id])]
  show ((cps.foldl normStep { idMap := [], uniqueID := 0, outRev := [] }).outRev.reverse,
      (cps.foldl normStep { idMap := [], uniqueID := 0, outRev := [] }).idMap) = _
  rw [h0, hmain]
  simp only [List.append_nil, List.reverse_reverse]
  rw [hgo cps []]
  rfl

/-! ### JSON values and `encoding/json` unmarshalling -/

/-- Abstract JSON value tree. -/
inductive JVal where
  | num (q : ℚ)
  | str (s : String)
  | boolean (b : Bool)
  | null
  | arr (xs : List JVal)
  | obj (fields : List (String × JVal))

/-- Field lookup in a JSON object (objects produced by a JSON parser carry
distinct keys; Go additionally matches struct field names
case-insensitively, which none of the statements below depend on). -/
def jLookup (key : String) : List (String × JVal) → Option JVal
  | [] => none
  | p :: rest => if p.1 = key then some p.2 else jLookup key rest

/-- Decimal value of the leading ASCII digits of a character list. -/
def digitsVal (acc : Nat) : List Char → Nat
  | [] => acc
  | c :: cs => if c.isDigit then digitsVal (acc * 10 + (c.toNat - 48)) cs else acc

/-- Model of `strconv.ParseInt(s, 10, 64)` as used by `encoding/json` for
integer map keys: an optional sign followed by one or more digits and
nothing else.  (The `int64` overflow failure mode is not modelled.) -/
def parseGoInt (s : String) : Option Int :=
  let cs := s.toList
  let signed : Bool × List Char :=
    match cs with
    | '-' :: rest => (true, rest)
    | '+' :: rest => (false, rest)
    | _ => (false, cs)
  if signed.2 ≠ [] ∧ signed.2.all Char.isDigit then
    let v : Nat := digitsVal 0 signed.2
    some (if signed.1 then -(v : Int) else (v : Int))
  else none

/-- Model of `fmt.Sscanf(idStr, "%d", &id)`: skip leading white space, read
an optional sign and one or more digits, ignore any trailing characters;
fail when no digit is found. -/
def sscanfInt (s : String) : Option Int :=
  let cs := s.toList.dropWhile fun c => c == ' ' || c == '\t' || c == '\n' || c == '\r'
  let signed : Bool × List Char :=
    match cs with
    | '-' :: rest => (true, rest)
    | '+' :: rest => (false, rest)
    | _ => (false, cs)
  match signed.2 with
  | c :: _ =>
    if c.isDigit then
      let v : Nat := digitsVal 0 signed.2
      some (if signed.1 then -(v : Int) else (v : Int))
    else none
  | [] => none

/-- Unmarshal one numeric struct field: absent or `null` fields keep the
zero value, a number is taken as is, anything else is a type error. -/
def jNumField (fields : List (String × JVal)) (key : String) : Except String ℚ :=
  match jLookup key fields with
  | none => .ok 0
  | some .null => .ok 0
  | some (.num q) => .ok q
  | some _ => .error ("cannot unmarshal field " ++ key)

/-- Unmarshal a `Deformation` value (struct with json tags `delta_x`,
`delta_y`, `delta_z`). -/
def unmarshalDeformation : JVal → Except String Deformation
  | .null => .ok ⟨0, 0, 0⟩
  | .obj fields =>
    match jNumField fields "delta_x", jNumField fields "delta_y", jNumField fields "delta_z" with
    | .ok x, .ok y, .ok z => .ok ⟨x, y, z⟩
    | .error e, _, _ => .error e
    | _, .error e, _ => .error e
    | _, _, .error e => .error e
  | _ => .error "cannot unmarshal Deformation"

/-- Unmarshal a `Position` value (struct with json tags `x`, `y`, `z`). -/
def unmarshalPosition : JVal → Except String Position
  | .null => .ok ⟨0, 0, 0⟩
  | .obj fields =>
    match jNumField fields "x", jNumField fields "y", jNumField fields "z" with
    | .ok x, .ok y, .ok z => .ok ⟨x, y, z⟩
    | .error e, _, _ => .error e
    | _, .error e, _ => .error e
    | _, _, .error e => .error e
  | _ => .error "cannot unmarshal Position"

/-- Unmarshal the fields of a JSON object as a `map[string]α`. -/
def unmarshalStrMapGo {α : Type} (elemVal : JVal → Except String α) :
    List (String × JVal) → Except String (List (String × α))
  | [] => .ok []
  | p :: rest =>
    match elemVal p.2 with
    | .error e => .error e
    | .ok a =>
      match unmarshalStrMapGo elemVal rest with
      | .error e => .error e
      | .ok l => .ok ((p.1, a) :: l)

/-- Unmarshal a `map[string]α` value given the unmarshaller for `α`. -/
def unmarshalStrMap {α : Type} (elemVal : JVal → Except String α) :
    JVal → Except String (List (String × α))
  | .null => .ok []
  | .obj fields => unmarshalStrMapGo elemVal fields
  | _ => .error "cannot unmarshal map"

/-- Unmarshal the elements of the `frames` JSON array. -/
def unmarshalFramesGo {α : Type} (elemVal : JVal → Except String α) :
    List JVal → Except String (List (List (String × α)))
  | [] => .ok []
  | j :: rest =>
    match unmarshalStrMap elemVal j with
    | .error e => .error e
    | .ok f =>
      match unmarshalFramesGo elemVal rest with
      | .error e => .error e
      | .ok fs => .ok (f :: fs)

/-- Unmarshal the `OpenAIResponse` struct of the multi-frame variants: a
JSON object whose `frames` field (absent or `null` means the zero value,
i.e. no frames) is an array of string-keyed maps. -/
def unmarshalFrames {α : Type} (elemVal : JVal → Except String α) :
    JVal → Except String (List (List (String × α)))
  | .null => .ok []
  | .obj fields =>
    match jLookup "frames" fields with
    | none => .ok []
    | some .null => .ok []
    | some (.arr xs) => unmarshalFramesGo elemVal xs
    | some _ => .error "cannot unmarshal frames"
  | _ => .error "cannot unmarshal OpenAIResponse"

/-- Unmarshal the fields of a JSON object as a `map[int]Deformation`. -/
def intKeyFieldsGo (acc : List (Int × Deformation)) :
    List (String × JVal) → Except String (List (Int × Deformation))
  | [] => .ok acc
  | p :: rest =>
    match parseGoInt p.1 with
    | none => .error ("invalid integer key " ++ p.1)
    | some i =>
      match unmarshalDeformation p.2 with
      | .error e => .error e
      | .ok d => intKeyFieldsGo (ainsert i d acc) rest

/-- Unmarshal the single-frame variant's `ResponsePayload`
(`map[int]Deformation`): every object key must parse as an integer via
`strconv.ParseInt`; a non-numeric key is an error for the whole unmarshal. -/
def unmarshalIntKeyMap : JVal → Except String (List (Int × Deformation))
  | .null => .ok []
  | .obj fields => intKeyFieldsGo [] fields
  | _ => .error "cannot unmarshal ResponsePayload"

/-- Reply content: `none` models text that is not valid JSON. -/
def unmarshalText {α : Type} (um : JVal → Except String α) :
    Option JVal → Except String α
  | none => .error "invalid JSON"
  | some j => um j

/-! ### Delta computation of the absolute-position variant -/

/-- Model of Go `math.Round`: round half away from zero. -/
def mathRound (q : ℚ) : ℚ :=
  if q < 0 then -(⌊-q + 1/2⌋ : ℤ) else ((⌊q + 1/2⌋ : ℤ) : ℚ)

/-- `math.Round(v*100)/100`: round to two decimal places. -/
def roundHundredths (q : ℚ) : ℚ := mathRound (q * 100) / 100

/-- One loop iteration of the absolute-position conversion: parse the key,
look up the original position (a missing map entry is Go's zero value
`nil`), and only emit a delta when at least three components exist. -/
def convertStepAbs (orig : List (Int × List ℚ)) (acc : List (Int × Deformation))
    (p : String × Position) : List (Int × Deformation) :=
  match sscanfInt p.1 with
  | none => acc
  | some i =>
    let originalPos := (alookup i orig).getD []
    if 3 ≤ originalPos.length then
      ainsert i
        ⟨roundHundredths (p.2.x - originalPos.getD 0 0),
         roundHundredths (p.2.y - originalPos.getD 1 0),
         roundHundredths (p.2.z - originalPos.getD 2 0)⟩ acc
    else acc

/-- The absolute-position variant's per-frame conversion loop. -/
def convertFrameAbs (orig : List (Int × List ℚ)) (frame : List (String × Position)) :
    List (Int × Deformation) :=
  frame.foldl (convertStepAbs orig) []

/-- One loop iteration of the multi-frame delta variant's key conversion:
parse the key with `Sscanf`, skip it when no integer can be read. -/
def convertStepDelta (acc : List (Int × Deformation)) (p : String × Deformation) :
    List (Int × Deformation) :=
  match sscanfInt p.1 with
  | none => acc
  | some i => ainsert i p.2 acc

/-- The multi-frame delta variant's per-frame key conversion loop. -/
def convertFrameDelta (frame : List (String × Deformation)) : List (Int × Deformation) :=
  frame.foldl convertStepDelta []

/-! ### Remapping ids back to the original ones -/

/-- One iteration of the adjust loop: copy the deformation found under the
assigned id, if any, to the original id. -/
def adjustStep (frame : List (Int × Deformation)) (acc : List (Int × Deformation))
    (p : Int × Int) : List (Int × Deformation) :=
  match alookup p.2 frame with
  | some d => ainsert p.1 d acc
  | none => acc

/-- The adjust loop (`for originalID, newID := range idMap { … }`): Go's map
iteration order is unspecified, but `idMap` has distinct keys, so the
resulting map contents do not depend on the order. -/
def adjustFrame (m : List (Int × Int)) (frame : List (Int × Deformation)) :
    List (Int × Deformation) :=
  m.foldl (adjustStep frame) []

/-! ### HTTP handlers -/

/-- Outcome of one request: the HTTP status, the payload serialized to the
external provider (`none` when no external call was attempted) and the
response body (`none` when an error response was written). -/
structure Outcome (ρ β : Type) where
  status : Nat
  sent : Option ρ
  body : Option β
deriving DecidableEq

/-- The external completion call, as seen by the handler: transport or
provider failure, or a reply whose content may or may not be valid JSON. -/
inductive ExternalOutcome where
  | failure (msg : String)
  | reply (content : Option JVal)

namespace Single

/-- `RequestPayload` of the single-frame variant. -/
structure RequestPayload where
  controlPoints : List ControlPoint
  prompt : String
deriving DecidableEq

/-- The single-frame `generateDeformations` handler. -/
def handle (method : String) (body : Option RequestPayload) (apiKey : String)
    (ext : ExternalOutcome) : Outcome RequestPayload (List (Int × Deformation)) :=
  if method ≠ "POST" then ⟨405, none, none⟩
  else
    match body with
    | none => ⟨400, none, none⟩
    | some payload =>
      if payload.controlPoints.length = 0 ∨ payload.prompt = "" then ⟨400, none, none⟩
      else
        let norm := normalizeIds payload.controlPoints
        if apiKey = "" then ⟨500, none, none⟩
        else
          let sent : RequestPayload := ⟨norm.1, payload.prompt⟩
          match ext with
          | .failure _ => ⟨500, some sent, none⟩
          | .reply content =>
            match unmarshalText unmarshalIntKeyMap content with
            | .error _ => ⟨500, some sent, none⟩
            | .ok deformations => ⟨200, some sent, some (adjustFrame norm.2 deformations)⟩

end Single

namespace MultiAbs

/-- `RequestPayload` of the multi-frame variants. -/
structure RequestPayload where
  controlPoints : List ControlPoint
  prompt : String
  length : Int
deriving DecidableEq

/-- The multi-frame absolute-position `generateDeformations` handler. -/
def handle (method : String) (body : Option RequestPayload) (apiKey : String)
    (ext : ExternalOutcome) : Outcome RequestPayload (List (List (Int × Deformation))) :=
  if method ≠ "POST" then ⟨405, none, none⟩
  else
    match body with
    | none => ⟨400, none, none⟩
    | some payload =>
      if payload.controlPoints.length = 0 ∨ payload.prompt = "" ∨ payload.length ≤ 0 then
        ⟨400, none, none⟩
      else
        let norm := normalizeIds payload.controlPoints
        if apiKey = "" then ⟨500, none, none⟩
        else
          let sent : RequestPayload := ⟨norm.1, payload.prompt, payload.length⟩
          match ext with
          | .failure _ => ⟨500, some sent, none⟩
          | .reply content =>
            match unmarshalText (unmarshalFrames unmarshalPosition) content with
            | .error _ => ⟨500, some sent, none⟩
            | .ok frames =>
              let originalPositions :=
                norm.1.foldl (fun m cp => ainsert cp.id cp.position m) []
              let deformations := frames.map (convertFrameAbs originalPositions)
              let adjusted := deformations.map (adjustFrame norm.2)
              ⟨200, some sent, some adjusted⟩

end MultiAbs

namespace MultiDelta

/-- `RequestPayload` of the multi-frame variants. -/
structure RequestPayload where
  controlPoints : List ControlPoint
  prompt : String
  length : Int
deriving DecidableEq

/-- The multi-frame delta `generateDeformations` handler. -/
def handle (method : String) (body : Option RequestPayload) (apiKey : String)
    (ext : ExternalOutcome) : Outcome RequestPayload (List (List (Int × Deformation))) :=
  if method ≠ "POST" then ⟨405, none, none⟩
  else
    match body with
    | none => ⟨400, none, none⟩
    | some payload =>
      if payload.controlPoints.length = 0 ∨ payload.prompt = "" ∨ payload.length ≤ 0 then
        ⟨400, none, none⟩
      else
        let norm := normalizeIds payload.controlPoints
        if apiKey = "" then ⟨500, none, none⟩
        else
          let sent : RequestPayload := ⟨norm.1, payload.prompt, payload.length⟩
          match ext with
          | .failure _ => ⟨500, some sent, none⟩
          | .reply content =>
            match unmarshalText (unmarshalFrames unmarshalDeformation) content with
            | .error _ => ⟨500, some sent, none⟩
            | .ok frames =>
              let deformations := frames.map convertFrameDelta
              let adjusted := deformations.map (adjustFrame norm.2)
              ⟨200, some sent, some adjusted⟩

end MultiDelta

/-! ### Further facts about the normalizer -/

theorem firstSeen_of_nodup (l : List Int) : ∀ seen : List Int,
    (∀ x ∈ l, x ∉ seen) → l.Nodup → firstSeen seen l = seen ++ l := by
  induction l with
  | nil => intro seen _ _; simp [firstSeen]
  | cons x xs ih =>
    intro seen hd h
    have hx : x ∉ seen := hd x (by simp)
    have hxxs : x ∉ xs := (List.nodup_cons.mp h).1
    have hrec := ih (seen ++ [x]) ?_ (List.nodup_cons.mp h).2
    · simp only [firstSeen, hx, if_false]
      rw [hrec, List.append_assoc]
      rfl
    · intro y hy
      simp only [List.mem_append, List.mem_singleton]
      rintro (hc | hc)
      · exact hd y (by simp [hy]) hc
      · exact hxxs (hc ▸ hy)

theorem idxOf_selfMap (l : List Int) (h : l.Nodup) : ∀ n : Int,
    l.map (fun x => n + idxOf x l) = intRange n l.length := by
  induction l with
  | nil => intro n; rfl
  | cons x xs ih =>
    intro n
    have hx : x ∉ xs := (List.nodup_cons.mp h).1
    have htail : xs.map (fun y => n + idxOf y (x :: xs)) =
        xs.map (fun y => (n + 1) + idxOf y xs) := by
      refine List.map_congr_left fun y hy => ?_
      have hxy : ¬ x = y := fun hc => hx (hc ▸ hy)
      simp only [idxOf, hxy, if_false]
      ring
    show (n + idxOf x (x :: xs)) :: xs.map (fun y => n + idxOf y (x :: xs)) =
      n :: intRange (n + 1) xs.length
    rw [htail, ih (List.nodup_cons.mp h).2 (n + 1)]
    simp [idxOf]

/-- Claim C1: the normalizer rewrites the ordered control-point sequence so
that each point's id becomes the dense zero-based index of its original id
in first-seen order (so two points sharing an original id receive the same
index, the output new id being a function of the original id), and it
produces the map sending each original id to its assigned index, whose
keys are the distinct original ids in first-seen order and whose values
are exactly `0, 1, …` in that order. -/
theorem claim1_identifier_normalizer (cps : List ControlPoint) :
    (normalizeIds cps).1 =
        (cps.map fun cp => { cp with id := idxOf cp.id (firstSeenIds cps) })
    ∧ (normalizeIds cps).2 = mapOfSeen (firstSeenIds cps) 0
    ∧ (normalizeIds cps).2.map Prod.fst = firstSeenIds cps
    ∧ (normalizeIds cps).2.map Prod.snd = intRange 0 (firstSeenIds cps).length
    ∧ ∀ x ∈ idsOf cps, alookup x (normalizeIds cps).2 =
        some (idxOf x (firstSeenIds cps)) := by
  have hc := normalizeIds_closed cps
  have h1 : (normalizeIds cps).1 =
      cps.map fun cp => { cp with id := idxOf cp.id (firstSeenIds cps) } := by
    rw [hc]
  have h2 : (normalizeIds cps).2 = mapOfSeen (firstSeenIds cps) 0 := by
    rw [hc]
  refine ⟨h1, h2, ?_, ?_, ?_⟩
  · rw [h2, mapOfSeen_keys]
  · rw [h2, mapOfSeen_values]
  · intro x hx
    have hmem : x ∈ firstSeenIds cps := by
      rw [firstSeenIds, mem_firstSeen]
      exact Or.inr hx
    rw [h2, alookup_mapOfSeen]
    simp [hmem]

/-- A request whose two control points accidentally share the id 7. -/
def dupInput : List ControlPoint :=
  [⟨7, "left leg", [1, 2, 0]⟩, ⟨7, "right arm", [1, 2, 0]⟩]

/-- Witness for claim C1, at a request whose points both carry the
original id 7: the produced map sends 7 to the assigned index 0. -/
theorem claim1_identifier_normalizer_witness :
    alookup 7 (normalizeIds dupInput).2 = some (idxOf 7 (firstSeenIds dupInput))
    ∧ idxOf 7 (firstSeenIds dupInput) = 0 := by
  exact ⟨(claim1_identifier_normalizer dupInput).2.2.2.2 7 (by decide), by decide⟩

/-- Claim C4 counterexample: when two input points share the original id 7,
the rewritten outbound sequence carries the id 0 twice, so the outbound
ids are not unique. -/
theorem claim4_counterexample :
    ((normalizeIds dupInput).1.map fun cp => cp.id) = [0, 0]
    ∧ ¬ ((normalizeIds dupInput).1.map fun cp => cp.id).Nodup := by
  decide

/-- Claim C4 (amended): the ids in the outbound payload are the first-seen
indices of the original ids — zero-based and dense over the distinct
original ids; two outbound entries carry the same id iff their original
ids were equal, and whenever the original ids are pairwise distinct the
outbound ids are unique, namely exactly `0, 1, …, n-1` in order. -/
theorem claim4_outbound_ids (cps : List ControlPoint) :
    ((normalizeIds cps).1.map fun cp => cp.id) =
        (idsOf cps).map (fun x => idxOf x (firstSeenIds cps))
    ∧ (∀ x ∈ idsOf cps, ∀ y ∈ idsOf cps,
        (idxOf x (firstSeenIds cps) = idxOf y (firstSeenIds cps) ↔ x = y))
    ∧ ((idsOf cps).Nodup →
        ((normalizeIds cps).1.map fun cp => cp.id) = intRange 0 cps.length) := by
  have hmemF : ∀ x ∈ idsOf cps, x ∈ firstSeenIds cps := by
    intro x hx
    rw [firstSeenIds, mem_firstSeen]
    exact Or.inr hx
  have h1 : ((normalizeIds cps).1.map fun cp => cp.id) =
      (idsOf cps).map (fun x => idxOf x (firstSeenIds cps)) := by
    rw [normalizeIds_closed, idsOf, List.map_map, List.map_map]
    rfl
  refine ⟨h1, ?_, ?_⟩
  · intro x hx y hy
    constructor
    · exact idxOf_inj x y _ (hmemF x hx) (hmemF y hy)
    · intro h
      rw [h]
  · intro hnd
    have hF : firstSeenIds cps = idsOf cps := by
      rw [firstSeenIds]
      have := firstSeen_of_nodup (idsOf cps) [] (by simp) hnd
      simpa using this
    rw [h1, hF]
    have hshift : (idsOf cps).map (fun x => idxOf x (idsOf cps)) =
        (idsOf cps).map (fun x => (0 : Int) + idxOf x (idsOf cps)) := by
      refine List.map_congr_left fun y _ => ?_
      ring
    rw [hshift, idxOf_selfMap (idsOf cps) hnd 0]
    rw [idsOf, List.length_map]

/-- A request with three pairwise distinct original ids. -/
def distinctInput : List ControlPoint :=
  [⟨10, "left leg", [1, 2, 0]⟩, ⟨3, "right arm", [-1, 2, 0]⟩, ⟨8, "head", [0, 7, 0]⟩]

/-- Witness for the amended claim C4, at a request with the distinct
original ids 10, 3, 8: the duplicate-free hypothesis holds and the
outbound ids come out as `[0, 1, 2]`. -/
theorem claim4_outbound_ids_witness :
    (idsOf distinctInput).Nodup
    ∧ ((normalizeIds distinctInput).1.map fun cp => cp.id) = intRange 0 distinctInput.length
    ∧ (idxOf 10 (firstSeenIds distinctInput) = idxOf 3 (firstSeenIds distinctInput) ↔
        (10 : Int) = 3) := by
  refine ⟨by decide, (claim4_outbound_ids distinctInput).2.2 (by decide), ?_⟩
  exact (claim4_outbound_ids distinctInput).2.1 10 (by decide) 3 (by decide)

/-! ### The id-remapping round trip -/

theorem adjust_fold (frame : List (Int × Deformation)) (o : Int) :
    ∀ (m : List (Int × Int)) (acc : List (Int × Deformation)),
      (m.map Prod.fst).Nodup →
      alookup o (m.foldl (adjustStep frame) acc) =
        (match alookup o m with
         | none => alookup o acc
         | some n =>
           match alookup n frame with
           | some d => some d
           | none => alookup o acc) := by
  intro m
  induction m with
  | nil => intro acc _; rfl
  | cons p rest ih =>
    intro acc hnd
    have hnd' : (rest.map Prod.fst).Nodup := (List.nodup_cons.mp hnd).2
    have hpn : p.1 ∉ rest.map Prod.fst := (List.nodup_cons.mp hnd).1
    rw [List.foldl_cons, ih _ hnd']
    by_cases hpo : p.1 = o
    · have hres : alookup o rest = none := by
        refine alookup_eq_none_of_not_mem o rest fun hc => hpn ?_
        rw [hpo]
        exact hc
      have hom : alookup o (p :: rest) = some p.2 := by
        simp [alookup, hpo]
      rw [hres, hom]
      cases hf : alookup p.2 frame with
      | none => simp [adjustStep, hf]
      | some d => simp [adjustStep, hf, alookup_ainsert, hpo]
    · have hom : alookup o (p :: rest) = alookup o rest := by
        simp [alookup, hpo]
      rw [hom]
      cases hf : alookup p.2 frame with
      | none => simp [adjustStep, hf]
      | some d =>
        simp only [adjustStep, hf]
        cases hr : alookup o rest with
        | none => simp [alookup_ainsert, hpo]
        | some n =>
          cases hfn : alookup n frame with
          | none => simp [alookup_ainsert, hpo]
          | some d2 => simp [hfn]

theorem alookup_adjustFrame (m : List (Int × Int)) (frame : List (Int × Deformation))
    (o : Int) (h : (m.map Prod.fst).Nodup) :
    alookup o (adjustFrame m frame) = (alookup o m).bind fun n => alookup n frame := by
  rw [adjustFrame, adjust_fold frame o m [] h]
  cases alookup o m with
  | none => rfl
  | some n =>
    cases hx : alookup n frame with
    | none => simp [hx, alookup]
    | some d => simp [hx]

theorem idMap_keys_nodup (cps : List ControlPoint) :
    ((normalizeIds cps).2.map Prod.fst).Nodup := by
  rw [normalizeIds_closed, mapOfSeen_keys]
  exact firstSeen_nodup (idsOf cps) [] List.nodup_nil

/-- Claim C3: after normalizing ids and remapping the reply, the final map
at an original id `o` holds exactly the reply's value at `o`'s assigned
index; consequently `o` carries a value iff `o` occurred in the original
request and its assigned index occurs in the model's output, i.e. the key
set of the final response is the original id set minus the ids whose
assigned index the model omitted (ordering of a Go map is unspecified and
no ordering is claimed). -/
theorem claim3_response_key_set (cps : List ControlPoint) (frame : List (Int × Deformation)) :
    (∀ o : Int, alookup o (adjustFrame (normalizeIds cps).2 frame) =
        (alookup o (normalizeIds cps).2).bind fun n => alookup n frame)
    ∧ (∀ o : Int, (alookup o (normalizeIds cps).2).isSome ↔ o ∈ idsOf cps)
    ∧ (∀ o : Int, (alookup o (adjustFrame (normalizeIds cps).2 frame)).isSome ↔
        (o ∈ idsOf cps ∧ ∃ n, alookup o (normalizeIds cps).2 = some n
          ∧ (alookup n frame).isSome)) := by
  have hlk : ∀ o : Int, alookup o (adjustFrame (normalizeIds cps).2 frame) =
      (alookup o (normalizeIds cps).2).bind fun n => alookup n frame :=
    fun o => alookup_adjustFrame _ frame o (idMap_keys_nodup cps)
  have hmem : ∀ o : Int, (alookup o (normalizeIds cps).2).isSome ↔ o ∈ idsOf cps := by
    intro o
    rw [normalizeIds_closed, alookup_mapOfSeen]
    by_cases ho : o ∈ firstSeenIds cps
    · simp only [ho, if_true, Option.isSome_some, true_iff]
      rw [firstSeenIds, mem_firstSeen] at ho
      simpa using ho
    · have hni : o ∉ idsOf cps := fun hc =>
        ho (by rw [firstSeenIds, mem_firstSeen]; exact Or.inr hc)
      simp [ho, hni]
  refine ⟨hlk, hmem, ?_⟩
  intro o
  rw [hlk o]
  cases hm : alookup o (normalizeIds cps).2 with
  | none =>
    have : o ∉ idsOf cps := by
      rw [← hmem o, hm]
      simp
    simp [this]
  | some n =>
    have ho : o ∈ idsOf cps := by
      rw [← hmem o, hm]
      simp
    simp only [Option.bind_some, ho, true_and]
    constructor
    · intro hs
      exact ⟨n, rfl, hs⟩
    · rintro ⟨n', hn', hs⟩
      rw [Option.some.injEq] at hn'
      rw [hn']
      exact hs

/-! ### Request validation -/

/-- Claim C7: a method other than POST yields 405, and a request with no
control points, an empty prompt, or (multi-frame variant) a non-positive
length yields 400 — in each case nothing is sent to the external provider
(`sent = none`, and the outcome does not depend on the external call at
all). -/
theorem claim7_validation (method : String) (body : Option MultiDelta.RequestPayload)
    (bodyS : Option Single.RequestPayload) (p : MultiDelta.RequestPayload)
    (q : Single.RequestPayload) (apiKey : String) (ext : ExternalOutcome) :
    (method ≠ "POST" → MultiDelta.handle method body apiKey ext = ⟨405, none, none⟩)
    ∧ (p.controlPoints.length = 0 ∨ p.prompt = "" ∨ p.length ≤ 0 →
        MultiDelta.handle "POST" (some p) apiKey ext = ⟨400, none, none⟩)
    ∧ (method ≠ "POST" → Single.handle method bodyS apiKey ext = ⟨405, none, none⟩)
    ∧ (q.controlPoints.length = 0 ∨ q.prompt = "" →
        Single.handle "POST" (some q) apiKey ext = ⟨400, none, none⟩) := by
  refine ⟨?_, ?_, ?_, ?_⟩
  · intro h
    simp [MultiDelta.handle, h]
  · intro h
    simp only [MultiDelta.handle, ne_eq]
    simp only [not_true_eq_false, if_false, ite_eq_left_iff, not_or, not_le,
      List.length_eq_zero]
    intro hc
    rcases hc with ⟨h1, h2, h3⟩
    rcases h with h | h | h
    · exact absurd (List.length_eq_zero.mp h) h1
    · exact absurd h h2
    · omega
  · intro h
    simp [Single.handle, h]
  · intro h
    simp only [Single.handle, ne_eq]
    simp only [not_true_eq_false, if_false, ite_eq_left_iff, not_or,
      List.length_eq_zero]
    intro hc
    rcases hc with ⟨h1, h2⟩
    rcases h with h | h
    · exact absurd (List.length_eq_zero.mp h) h1
    · exact absurd h h2

/-- Witness for claim C7: a GET request is answered with 405 and a POST
request with an empty control-point list with 400, in both variants,
without any external call. -/
theorem claim7_validation_witness :
    (MultiDelta.handle "GET" none "k" (.failure "down") = ⟨405, none, none⟩)
    ∧ (MultiDelta.handle "POST" (some ⟨[], "wave", 3⟩) "k" (.failure "down") = ⟨400, none, none⟩)
    ∧ (Single.handle "GET" none "k" (.failure "down") = ⟨405, none, none⟩)
    ∧ (Single.handle "POST" (some ⟨[], "wave"⟩) "k" (.failure "down") = ⟨400, none, none⟩) := by
  have h := claim7_validation "GET" none none ⟨[], "wave", 3⟩ ⟨[], "wave"⟩ "k" (.failure "down")
  exact ⟨h.1 (by decide), h.2.1 (by decide), h.2.2.1 (by decide), h.2.2.2 (by decide)⟩

/-! ### The per-frame conversion loops -/

theorem convertAbs_preserved (orig : List (Int × List ℚ)) (i : Int) :
    ∀ (post : List (String × Position)), (∀ q ∈ post, sscanfInt q.1 ≠ some i) →
    ∀ acc, alookup i (post.foldl (convertStepAbs orig) acc) = alookup i acc := by
  intro post
  induction post with
  | nil => intro _ acc; rfl
  | cons q rest ih =>
    intro hpost acc
    rw [List.foldl_cons, ih (fun r hr => hpost r (by simp [hr]))]
    cases hs : sscanfInt q.1 with
    | none => simp [convertStepAbs, hs]
    | some j =>
      have hji : ¬ j = i := fun hc => hpost q (by simp) (hc ▸ hs)
      simp only [convertStepAbs, hs]
      by_cases hl : 3 ≤ ((alookup j orig).getD []).length
      · simp [hl, alookup_ainsert, hji]
      · simp [hl]

theorem convertDelta_preserved (i : Int) :
    ∀ (post : List (String × Deformation)), (∀ q ∈ post, sscanfInt q.1 ≠ some i) →
    ∀ acc, alookup i (post.foldl convertStepDelta acc) = alookup i acc := by
  intro post
  induction post with
  | nil => intro _ acc; rfl
  | cons q rest ih =>
    intro hpost acc
    rw [List.foldl_cons, ih (fun r hr => hpost r (by simp [hr]))]
    cases hs : sscanfInt q.1 with
    | none => simp [convertStepDelta, hs]
    | some j =>
      have hji : ¬ j = i := fun hc => hpost q (by simp) (hc ▸ hs)
      simp [convertStepDelta, hs, alookup_ainsert, hji]

theorem convertDelta_skip (pre post : List (String × Deformation)) (k : String)
    (v : Deformation) (hk : sscanfInt k = none) :
    convertFrameDelta (pre ++ (k, v) :: post) = convertFrameDelta (pre ++ post) := by
  rw [convertFrameDelta, convertFrameDelta, List.foldl_append, List.foldl_append,
    List.foldl_cons]
  have hstep : convertStepDelta (pre.foldl convertStepDelta []) (k, v) =
      pre.foldl convertStepDelta [] := by
    simp [convertStepDelta, hk]
  rw [hstep]

theorem convertAbs_skip (orig : List (Int × List ℚ)) (pre post : List (String × Position))
    (k : String) (p : Position)
    (hk : (sscanfInt k).elim True fun i => ((alookup i orig).getD []).length < 3) :
    convertFrameAbs orig (pre ++ (k, p) :: post) = convertFrameAbs orig (pre ++ post) := by
  rw [convertFrameAbs, convertFrameAbs, List.foldl_append, List.foldl_append,
    List.foldl_cons]
  have hstep : convertStepAbs orig (pre.foldl (convertStepAbs orig) []) (k, p) =
      pre.foldl (convertStepAbs orig) [] := by
    cases hs : sscanfInt k with
    | none => simp [convertStepAbs, hs]
    | some i =>
      rw [hs] at hk
      have hlt : ((alookup i orig).getD []).length < 3 := hk
      have hnle : ¬ 3 ≤ ((alookup i orig).getD []).length := by omega
      simp [convertStepAbs, hs, hnle]
  rw [hstep]

theorem convertAbs_lookup (orig : List (Int × List ℚ)) (pre post : List (String × Position))
    (k : String) (p : Position) (i : Int) (op : List ℚ)
    (hk : sscanfInt k = some i) (hop : alookup i orig = some op) (hlen : 3 ≤ op.length)
    (hpost : ∀ q ∈ post, sscanfInt q.1 ≠ some i) :
    alookup i (convertFrameAbs orig (pre ++ (k, p) :: post)) =
      some ⟨roundHundredths (p.x - op.getD 0 0),
            roundHundredths (p.y - op.getD 1 0),
            roundHundredths (p.z - op.getD 2 0)⟩ := by
  rw [convertFrameAbs, List.foldl_append, List.foldl_cons]
  have hstep : convertStepAbs orig (pre.foldl (convertStepAbs orig) []) (k, p) =
      ainsert i
        ⟨roundHundredths (p.x - op.getD 0 0),
         roundHundredths (p.y - op.getD 1 0),
         roundHundredths (p.z - op.getD 2 0)⟩ (pre.foldl (convertStepAbs orig) []) := by
    simp [convertStepAbs, hk, hop, hlen]
  rw [hstep, convertAbs_preserved orig i post hpost, alookup_ainsert]
  simp

/-- Claim C2: in the absolute-position variant, a frame entry whose key
parses to the id `i` of a control point whose original position has at
least three components (and whose id no later entry of the frame also
parses to) is emitted as the component-wise difference between the
returned absolute position and the original position, each component
rounded half away from zero at the hundredths digit. -/
theorem claim2_abs_delta (orig : List (Int × List ℚ)) (pre post : List (String × Position))
    (k : String) (p : Position) (i : Int) (op : List ℚ)
    (hk : sscanfInt k = some i) (hop : alookup i orig = some op) (hlen : 3 ≤ op.length)
    (hpost : ∀ q ∈ post, sscanfInt q.1 ≠ some i) :
    alookup i (convertFrameAbs orig (pre ++ (k, p) :: post)) =
      some ⟨roundHundredths (p.x - op.getD 0 0),
            roundHundredths (p.y - op.getD 1 0),
            roundHundredths (p.z - op.getD 2 0)⟩ :=
  convertAbs_lookup orig pre post k p i op hk hop hlen hpost

/-- Witness for claim C2, at the claim's own example: original position
`(1, 2, 0)` and returned absolute position `(1.2, 2.5, 0.1)` produce the
delta `(0.2, 0.5, 0.1)` exactly. -/
theorem claim2_abs_delta_witness :
    alookup 0 (convertFrameAbs [(0, [1, 2, 0])]
        [("0", ⟨mkRat 12 10, mkRat 25 10, mkRat 1 10⟩)]) =
      some ⟨mkRat 2 10, mkRat 5 10, mkRat 1 10⟩ := by
  have h := claim2_abs_delta [(0, [1, 2, 0])] [] []
    "0" ⟨mkRat 12 10, mkRat 25 10, mkRat 1 10⟩ 0 [1, 2, 0]
    (by decide) (by decide) (by decide) (by simp)
  rw [List.nil_append] at h
  rw [h]
  norm_num [roundHundredths, mathRound, List.getD]

/-- Claim C9: a frame key that begins with a decimal integer followed by
other characters, such as `12abc`, is not skipped: `Sscanf` reads its
leading integer and the value is recorded under that id; a key with no
parsable leading integer is skipped. -/
theorem claim9_leading_integer_keys :
    sscanfInt "12abc" = some 12
    ∧ (∀ (pre post : List (String × Deformation)) (k : String) (v : Deformation) (i : Int),
        sscanfInt k = some i → (∀ q ∈ post, sscanfInt q.1 ≠ some i) →
        alookup i (convertFrameDelta (pre ++ (k, v) :: post)) = some v)
    ∧ (∀ (pre post : List (String × Deformation)) (k : String) (v : Deformation),
        sscanfInt k = none →
        convertFrameDelta (pre ++ (k, v) :: post) = convertFrameDelta (pre ++ post)) := by
  refine ⟨by decide, ?_, convertDelta_skip⟩
  intro pre post k v i hk hpost
  rw [convertFrameDelta, List.foldl_append, List.foldl_cons]
  have hstep : convertStepDelta (pre.foldl convertStepDelta []) (k, v) =
      ainsert i v (pre.foldl convertStepDelta []) := by
    simp [convertStepDelta, hk]
  rw [hstep, convertDelta_preserved i post hpost, alookup_ainsert]
  simp

/-- Witness for claim C9: the key `12abc` is recorded under the id 12. -/
theorem claim9_leading_integer_keys_witness :
    sscanfInt "12abc" = some 12
    ∧ alookup 12 (convertFrameDelta [("12abc", ⟨1, 2, 3⟩)]) = some ⟨1, 2, 3⟩ := by
  refine ⟨claim9_leading_integer_keys.1, ?_⟩
  exact claim9_leading_integer_keys.2.1 [] [] "12abc" ⟨1, 2, 3⟩ 12 (by decide) (by simp)

/-- Claim C10: in the absolute-position variant, a frame entry whose key
does not parse, or whose parsed id has no control point (Go's map read
then yields the zero value `nil`), or whose control point's position has
fewer than three components, contributes nothing: removing it leaves the
converted frame unchanged (so the remaining entries are still converted),
and the conversion is a total function — the guarded component accesses
cannot fail. -/
theorem claim10_unmatched_entries_skipped (orig : List (Int × List ℚ))
    (pre post : List (String × Position)) (k : String) (p : Position)
    (hk : (sscanfInt k).elim True fun i => ((alookup i orig).getD []).length < 3) :
    convertFrameAbs orig (pre ++ (k, p) :: post) = convertFrameAbs orig (pre ++ post) :=
  convertAbs_skip orig pre post k p hk

/-- Witness for claim C10: the entry keyed `99`, whose id has no control
point, is dropped while the entry keyed `0` is still converted. -/
theorem claim10_unmatched_entries_skipped_witness :
    convertFrameAbs [(0, [1, 2, 0])] [("99", ⟨4, 4, 4⟩), ("0", ⟨3, 2, 0⟩)] =
      convertFrameAbs [(0, [1, 2, 0])] [("0", ⟨3, 2, 0⟩)]
    ∧ alookup 0 (convertFrameAbs [(0, [1, 2, 0])] [("0", ⟨3, 2, 0⟩)]) =
        some ⟨2, 0, 0⟩ := by
  constructor
  · refine claim10_unmatched_entries_skipped [(0, [1, 2, 0])] []
      [("0", ⟨3, 2, 0⟩)] "99" ⟨4, 4, 4⟩ ?_
    rw [show sscanfInt "99" = some 99 from by decide]
    show ((alookup 99 [(0, [1, 2, 0])]).getD ([] : List ℚ)).length < 3
    decide
  · have h := convertAbs_lookup [(0, [1, 2, 0])] [] [] "0" ⟨3, 2, 0⟩ 0 [1, 2, 0]
      (by decide) (by decide) (by decide) (by simp)
    rw [List.nil_append] at h
    rw [h]
    norm_num [roundHundredths, mathRound, List.getD]

/-! ### Non-numeric keys and malformed replies -/

theorem intKeyFields_error_of_bad_key :
    ∀ (fields : List (String × JVal)) (k : String) (v : JVal),
      (k, v) ∈ fields → parseGoInt k = none →
      ∀ acc, ∃ e, intKeyFieldsGo acc fields = .error e := by
  intro fields
  induction fields with
  | nil =>
    intro k v hmem
    simp at hmem
  | cons p rest ih =>
    intro k v hmem hk acc
    rcases List.mem_cons.mp hmem with heq | hmem'
    · refine ⟨"invalid integer key " ++ k, ?_⟩
      rw [← heq]
      simp [intKeyFieldsGo, hk]
    · cases hp : parseGoInt p.1 with
      | none => exact ⟨"invalid integer key " ++ p.1, by simp [intKeyFieldsGo, hp]⟩
      | some i =>
        cases hd : unmarshalDeformation p.2 with
        | error e => exact ⟨e, by simp [intKeyFieldsGo, hp, hd]⟩
        | ok d =>
          rcases ih k v hmem' hk (ainsert i d acc) with ⟨e, he⟩
          exact ⟨e, by simp [intKeyFieldsGo, hp, hd, he]⟩

/-- Claim C5 counterexample: in the single-frame variant a reply carrying
the non-numeric key `abc` is not skipped — the whole request fails with
500 and no body, even though the reply also holds a decodable entry
under the key `0`. -/
theorem claim5_counterexample :
    Single.handle "POST" (some ⟨[⟨0, "head", [0, 7, 0]⟩], "nod head"⟩) "k"
        (.reply (some (.obj [("abc", .obj [("delta_x", .num 1)]),
          ("0", .obj [("delta_x", .num 1)])]))) =
      ⟨500, some ⟨[⟨0, "head", [0, 7, 0]⟩], "nod head"⟩, none⟩ := by
  decide

/-- Claim C5 (amended): in the two multi-frame variants a frame key with
no parsable leading integer is skipped — removing such an entry leaves
the decoded frame unchanged, so the rest of the frame is still decoded —
but in the single-frame variant a non-numeric key fails the unmarshal of
the whole reply and the request is answered with 500 and no body. -/
theorem claim5_nonnumeric_keys :
    (∀ (pre post : List (String × Deformation)) (k : String) (v : Deformation),
        sscanfInt k = none →
        convertFrameDelta (pre ++ (k, v) :: post) = convertFrameDelta (pre ++ post))
    ∧ (∀ (orig : List (Int × List ℚ)) (pre post : List (String × Position))
          (k : String) (p : Position), sscanfInt k = none →
        convertFrameAbs orig (pre ++ (k, p) :: post) = convertFrameAbs orig (pre ++ post))
    ∧ (∀ (q : Single.RequestPayload) (apiKey : String) (fields : List (String × JVal))
          (k : String) (v : JVal), (k, v) ∈ fields → parseGoInt k = none →
        q.controlPoints.length ≠ 0 → q.prompt ≠ "" → apiKey ≠ "" →
        Single.handle "POST" (some q) apiKey (.reply (some (.obj fields))) =
          ⟨500, some ⟨(normalizeIds q.controlPoints).1, q.prompt⟩, none⟩) := by
  refine ⟨convertDelta_skip, ?_, ?_⟩
  · intro orig pre post k p hk
    refine convertAbs_skip orig pre post k p ?_
    rw [hk]
    trivial
  · intro q apiKey fields k v hmem hk h1 h2 h3
    rcases intKeyFields_error_of_bad_key fields k v hmem hk [] with ⟨e, he⟩
    simp [Single.handle, h1, h2, h3, unmarshalText, unmarshalIntKeyMap, he]

/-- Witness for the amended claim C5: the entry keyed `abc` is dropped by
the multi-frame decoder while the entry keyed `0` is kept, and the same
key makes the single-frame variant answer 500. -/
theorem claim5_nonnumeric_keys_witness :
    convertFrameDelta [("abc", ⟨1, 0, 0⟩), ("0", ⟨1, 0, 0⟩)] =
        convertFrameDelta [("0", ⟨1, 0, 0⟩)]
    ∧ Single.handle "POST" (some ⟨[⟨0, "head", [0, 7, 0]⟩], "nod head"⟩) "kk"
        (.reply (some (.obj [("abc", .obj [("delta_x", .num 1)]),
          ("0", .obj [("delta_x", .num 1)])]))) =
      ⟨500, some ⟨[⟨0, "head", [0, 7, 0]⟩], "nod head"⟩, none⟩ := by
  constructor
  · have h := claim5_nonnumeric_keys.1 [] [("0", ⟨1, 0, 0⟩)] "abc" ⟨1, 0, 0⟩ (by decide)
    rw [List.nil_append, List.nil_append] at h
    exact h
  · have h := claim5_nonnumeric_keys.2.2 ⟨[⟨0, "head", [0, 7, 0]⟩], "nod head"⟩ "kk"
      [("abc", .obj [("delta_x", .num 1)]), ("0", .obj [("delta_x", .num 1)])]
      "abc" (.obj [("delta_x", .num 1)]) (List.mem_cons_self _ _) (by decide)
      (by decide) (by decide) (by decide)
    exact h.trans (by decide)

/-- A well-formed multi-frame request used in concrete scenarios. -/
def validMultiReq : MultiDelta.RequestPayload := ⟨[⟨0, "head", [0, 7, 0]⟩], "nod head", 1⟩

/-- Claim C6 counterexample: a reply that is the valid JSON object `{}` —
well-formed but lacking the expected `frames` structure — does not fail
the request: the handler answers 200 with the empty array body. -/
theorem claim6_counterexample :
    MultiDelta.handle "POST" (some validMultiReq) "k" (.reply (some (.obj []))) =
      ⟨200, some ⟨[⟨0, "head", [0, 7, 0]⟩], "nod head", 1⟩, some []⟩ := by
  decide

/-- Claim C6 (amended): reply text that is not valid JSON, and replies on
which the unmarshal reports a type mismatch, fail the whole multi-frame
request with 500 and no body; but a reply that is a valid JSON object
without a `frames` key unmarshals to the zero value — an empty frame
list — and the request succeeds with 200 and an empty array body. -/
theorem claim6_decode_failures :
    (∀ (p : MultiDelta.RequestPayload) (apiKey : String),
        p.controlPoints.length ≠ 0 → p.prompt ≠ "" → ¬ p.length ≤ 0 → apiKey ≠ "" →
        MultiDelta.handle "POST" (some p) apiKey (.reply none) =
          ⟨500, some ⟨(normalizeIds p.controlPoints).1, p.prompt, p.length⟩, none⟩)
    ∧ (∀ (p : MultiDelta.RequestPayload) (apiKey : String) (j : JVal) (e : String),
        p.controlPoints.length ≠ 0 → p.prompt ≠ "" → ¬ p.length ≤ 0 → apiKey ≠ "" →
        unmarshalFrames unmarshalDeformation j = .error e →
        MultiDelta.handle "POST" (some p) apiKey (.reply (some j)) =
          ⟨500, some ⟨(normalizeIds p.controlPoints).1, p.prompt, p.length⟩, none⟩)
    ∧ (∀ fields : List (String × JVal), jLookup "frames" fields = none →
        unmarshalFrames (α := Deformation) unmarshalDeformation (.obj fields) = .ok [])
    ∧ (∀ (p : MultiDelta.RequestPayload) (apiKey : String) (fields : List (String × JVal)),
        p.controlPoints.length ≠ 0 → p.prompt ≠ "" → ¬ p.length ≤ 0 → apiKey ≠ "" →
        jLookup "frames" fields = none →
        MultiDelta.handle "POST" (some p) apiKey (.reply (some (.obj fields))) =
          ⟨200, some ⟨(normalizeIds p.controlPoints).1, p.prompt, p.length⟩, some []⟩) := by
  have hnoframes : ∀ fields : List (String × JVal), jLookup "frames" fields = none →
      unmarshalFrames (α := Deformation) unmarshalDeformation (.obj fields) = .ok [] := by
    intro fields hf
    simp [unmarshalFrames, hf]
  refine ⟨?_, ?_, hnoframes, ?_⟩
  · intro p apiKey h1 h2 h3 h4
    simp [MultiDelta.handle, h1, h2, h3, h4, unmarshalText]
  · intro p apiKey j e h1 h2 h3 h4 he
    simp [MultiDelta.handle, h1, h2, h3, h4, unmarshalText, he]
  · intro p apiKey fields h1 h2 h3 h4 hf
    simp [MultiDelta.handle, h1, h2, h3, h4, unmarshalText, hnoframes fields hf]

/-- Witness for the amended claim C6: non-JSON reply text yields 500 and
the reply `{}` yields 200 with an empty array. -/
theorem claim6_decode_failures_witness :
    MultiDelta.handle "POST" (some validMultiReq) "k" (.reply none) =
        ⟨500, some ⟨[⟨0, "head", [0, 7, 0]⟩], "nod head", 1⟩, none⟩
    ∧ unmarshalFrames (α := Deformation) unmarshalDeformation (.obj []) = .ok []
    ∧ MultiDelta.handle "POST" (some validMultiReq) "k" (.reply (some (.obj []))) =
        ⟨200, some ⟨[⟨0, "head", [0, 7, 0]⟩], "nod head", 1⟩, some []⟩ := by
  refine ⟨?_, claim6_decode_failures.2.2.1 [] rfl, ?_⟩
  · have h := claim6_decode_failures.1 validMultiReq "k"
      (by decide) (by decide) (by decide) (by decide)
    exact h.trans (by decide)
  · have h := claim6_decode_failures.2.2.2 validMultiReq "k" []
      (by decide) (by decide) (by decide) (by decide) rfl
    exact h.trans (by decide)

/-! ### End-to-end scenario -/

/-- The end-to-end request: one control point with id 5. -/
def c8req : MultiDelta.RequestPayload := ⟨[⟨5, "head", [0, 7, 0]⟩], "nod head", 1⟩

/-- The stubbed external reply
`{"frames":[{"0":{"delta_x":0,"delta_y":-0.1,"delta_z":0}}]}`. -/
def c8reply : JVal :=
  .obj [("frames", .arr [.obj [("0",
    .obj [("delta_x", .num 0), ("delta_y", .num (mkRat (-1) 10)), ("delta_z", .num 0)])]])]

/-- Claim C8: the multi-frame delta variant maps the request with one
control point of id 5 and the stubbed reply whose single frame is keyed
by the rewritten id 0 to the response `[{"5":{"delta_x":0,"delta_y":-0.1,
"delta_z":0}}]` — one frame, keyed by the original id 5, with the reply's
deformation passed through unchanged. -/
theorem claim8_end_to_end :
    MultiDelta.handle "POST" (some c8req) "sk" (.reply (some c8reply)) =
      ⟨200, some ⟨[⟨0, "head", [0, 7, 0]⟩], "nod head", 1⟩,
        some [[(5, ⟨0, mkRat (-1) 10, 0⟩)]]⟩ := by
  decide

end DR
